import Mathlib

/-!
Verification development for the ifs_pascal repository.

The file gives a shallow embedding of src/ifs_pascal/Image_IFS.py.
Floating point parameters of the Python code are modelled as exact
rationals.  The PIL image primitives used by the code (Image.new,
resize, transpose FLIP_TOP_BOTTOM, paste with and without a mask) are
modelled on a total pixel-function representation; paste with an RGBA
mask uses the Pillow per-channel arithmetic
BLEND(m, c1, c2) = MULDIV255(c1, 255 - m) + MULDIV255(c2, m) with
MULDIV255(a, b) = (t + t / 256) / 256 where t = a * b + 128.
Resampling for resize is modelled as nearest-neighbour sampling, which
is the resampling family named by the specification.
-/

/-- An RGBA pixel; channel values are naturals in the range 0..255. -/
structure Pixel where
  r : ℕ
  g : ℕ
  b : ℕ
  a : ℕ
deriving DecidableEq

/-- A square raster buffer of side length size.  The pixel function is
total over integer coordinates (column x, row y counted from the top);
operations make clipping explicit, and out-of-range coordinates are
kept pointing at the underlying buffer so that every operation is a
total function. -/
structure Img where
  size : ℕ
  pix : ℤ → ℤ → Pixel

/-- Model of PIL Image.new for mode RGBA: a constant buffer. -/
def Img.new (n : ℕ) (c : Pixel) : Img := ⟨n, fun _ _ => c⟩

/-- Model of PIL transpose with FLIP_TOP_BOTTOM: reverse the row order. -/
def Img.flip (img : Img) : Img :=
  ⟨img.size, fun x y => img.pix x ((img.size : ℤ) - 1 - y)⟩

/-- Model of PIL Image.resize to an m by m target with nearest-neighbour
sampling: destination pixel (x, y) samples the source at the scaled-down
integer coordinates. -/
def Img.resize (img : Img) (m : ℕ) : Img :=
  ⟨m, fun x y => img.pix (x * (img.size : ℤ) / (m : ℤ)) (y * (img.size : ℤ) / (m : ℤ))⟩

/-- Model of PIL paste without a mask at offset (dx, dy): source pixels
replace destination pixels on the intersection of the shifted source
rectangle with the destination rectangle; everything outside is
unchanged (silent clipping). -/
def Img.pasteAt (dst src : Img) (dx dy : ℤ) : Img :=
  ⟨dst.size, fun x y =>
    if dx ≤ x ∧ x < dx + (src.size : ℤ) ∧ dy ≤ y ∧ y < dy + (src.size : ℤ) ∧
       0 ≤ x ∧ x < (dst.size : ℤ) ∧ 0 ≤ y ∧ y < (dst.size : ℤ) then
      src.pix (x - dx) (y - dy)
    else dst.pix x y⟩

/-- The Pillow MULDIV255 macro: correctly rounded a * b / 255 on byte
values, computed as ((a * b + 128) + (a * b + 128) / 256) / 256. -/
def muldiv255 (x y : ℕ) : ℕ := (x * y + 128 + (x * y + 128) / 256) / 256

/-- The Pillow BLEND macro used by paste with a mask: channel c1 of the
destination and c2 of the source are combined under mask value m. -/
def blendChannel (m c1 c2 : ℕ) : ℕ := muldiv255 c1 (255 - m) + muldiv255 c2 m

/-- Blend two pixels under mask value m, channel by channel (the alpha
channel is blended as well, as Pillow does for an RGBA destination). -/
def Pixel.blendPix (m : ℕ) (d s : Pixel) : Pixel :=
  ⟨blendChannel m d.r s.r, blendChannel m d.g s.g,
   blendChannel m d.b s.b, blendChannel m d.a s.a⟩

/-- Model of PIL paste of src onto dst at offset (0, 0) with src itself
as the mask: on the common rectangle each channel is blended using the
alpha channel of src as the mask value; outside it dst is unchanged.
Both call sites in the source paste equal-sized buffers at the origin. -/
def Img.pasteMask (dst src : Img) : Img :=
  ⟨dst.size, fun x y =>
    if 0 ≤ x ∧ x < (src.size : ℤ) ∧ 0 ≤ y ∧ y < (src.size : ℤ) ∧
       x < (dst.size : ℤ) ∧ y < (dst.size : ℤ) then
      Pixel.blendPix (src.pix x y).a (dst.pix x y) (src.pix x y)
    else dst.pix x y⟩

/-- Python int() applied to a rational: truncation toward zero, the
floor for a nonnegative argument and the negated floor of the negation
otherwise. -/
def ratTrunc (q : ℚ) : ℤ := if 0 ≤ q then ⌊q⌋ else -⌊-q⌋

/-- The pixel side length the code computes for a scaled copy:
scale = int(contraction[0] * image_size) in iterate. -/
def pixel_scale (s : ℚ) (image_size : ℕ) : ℤ := ratTrunc (s * (image_size : ℚ))

/-- The pixel offset the code computes for a translation component:
int(contraction[1][i] * image_size) in iterate. -/
def pixel_offset (t : ℚ) (image_size : ℕ) : ℤ := ratTrunc (t * (image_size : ℚ))

/-- Modelled from the spec: the specification prescribes
round(s * image_size) for the pixel quantities of the recursive step.
Defined only for comparison with pixel_scale and pixel_offset, which
embed what the code actually computes. -/
def pixel_scale_spec (s : ℚ) (image_size : ℕ) : ℤ := round (s * (image_size : ℚ))

/-- State of the Image_IFS class: seed image, current output image,
output size, origin mode and the list of contractions, each one a pair
(scale, (x offset, y offset)). -/
structure Image_IFS where
  seed_image : Img
  image : Img
  image_size : ℕ
  center_origin : Bool
  functions : List (ℚ × ℚ × ℚ)

/-- The module level helper building the default all-white opaque seed. -/
def _default_seed (image_size : ℕ) : Img :=
  Img.new image_size ⟨255, 255, 255, 255⟩

/-- Constructor of Image_IFS: absent seed gives the default white seed,
a present seed is resized to image_size by image_size; the current image
starts as the seed and the contraction list starts empty. -/
def Image_IFS.init (seed_image : Option Img) (image_size : ℕ)
    (center_origin : Bool) : Image_IFS :=
  let seed := match seed_image with
    | none => _default_seed image_size
    | some s => s.resize image_size
  { seed_image := seed, image := seed, image_size := image_size,
    center_origin := center_origin, functions := [] }

/-- Image_IFS.add_function: appends the pair to the contraction list.
The Python body performs no validation and has no failure path. -/
def Image_IFS.add_function (st : Image_IFS) (scale : ℚ)
    (translation : ℚ × ℚ) : Image_IFS :=
  { st with functions := st.functions ++ [(scale, translation)] }

/-- One contraction of the loop body of iterate: resize the start image
to the truncated pixel scale, compute the placement offset (the scale
itself as base offset in center-origin mode, else zero, plus the
truncated translation offsets) and paste the copy onto a fresh
full-size transparency.  The negative-resize totalization uses toNat;
the code would instead fail inside PIL for a negative target, a case no
claim exercises. -/
def applyContraction (center_origin : Bool) (image_size : ℕ)
    (start_image : Img) (contraction : ℚ × ℚ × ℚ) : Img :=
  let scale := pixel_scale contraction.1 image_size
  let current_image := start_image.resize scale.toNat
  let x_offset := (if center_origin then scale else 0) +
    pixel_offset contraction.2.1 image_size
  let y_offset := (if center_origin then scale else 0) +
    pixel_offset contraction.2.2 image_size
  (Img.new image_size ⟨0, 0, 0, 0⟩).pasteAt current_image x_offset y_offset

/-- The body of the positive branch of iterate: flip the current image
on the first call, build a fresh transparent canvas, paste the layer of
every contraction onto it in list order with the layer as its own mask,
and store the canvas as the current image. -/
def iterStep (st : Image_IFS) (first_call : Bool) : Image_IFS :=
  let start_image := if first_call then st.image.flip else st.image
  let new_image :=
    st.functions.foldl
      (fun new_image c =>
        new_image.pasteMask
          (applyContraction st.center_origin st.image_size start_image c))
      (Img.new st.image_size ⟨0, 0, 0, 0⟩)
  { st with image := new_image }

/-- The base case of iterate on a non-first call: fill an opaque black
background, paste the current image onto it with itself as mask, flip
vertically and store the result. -/
def finalize (st : Image_IFS) : Image_IFS :=
  let background := Img.new st.image_size ⟨0, 0, 0, 255⟩
  { st with image := (background.pasteMask st.image).flip }

/-- Image_IFS.iterate, translated branch for branch: a positive count
runs one step and recurses with first_call set to false; a zero count on
a non-first call finalizes; anything else (zero count on the first call,
or a negative count) leaves the state untouched. -/
def Image_IFS.iterate (st : Image_IFS) (n_iterations : ℤ)
    (first_call : Bool) : Image_IFS :=
  if h : 0 < n_iterations then
    (iterStep st first_call).iterate (n_iterations - 1) false
  else if n_iterations = 0 ∧ first_call = false then finalize st
  else st
termination_by n_iterations.toNat
decreasing_by omega

/-- The contraction list built by n_sierpinski: for i below n and j
below n - i the contraction (1/n, ((i + 2j)/(2n), i*sqrt3/(2n))).  The
square root of three is a floating constant in the code and is
abstracted here as a rational parameter. -/
def sierpinskiFunctions (sqrt3 : ℚ) (n : ℕ) : List (ℚ × ℚ × ℚ) :=
  let scale : ℚ := 1 / (n : ℚ)
  let n2 : ℚ := 2 * (n : ℚ)
  (List.range n).flatMap fun (i : ℕ) =>
    (List.range (n - i)).map fun (j : ℕ) =>
      (scale, (((i : ℚ) + 2 * (j : ℚ)) / n2, ((i : ℚ) * sqrt3) / n2))

/-- The module function n_sierpinski: construct an Image_IFS with
center_origin false and add the Sierpinski contractions in loop order. -/
def n_sierpinski (sqrt3 : ℚ) (seed_image : Option Img) (image_size n : ℕ) :
    Image_IFS :=
  (sierpinskiFunctions sqrt3 n).foldl
    (fun st c => st.add_function c.1 c.2)
    (Image_IFS.init seed_image image_size false)

/-- The contraction list built by polygon_ifs: for k below n_vertices
the contraction (2/n, (scale * cos(omega k), scale * sin(omega k))),
followed by (scale, (0, 0)) when include_center is set.  The cosine and
sine values are floating constants in the code and are abstracted here
as rational-valued functions of k. -/
def polygonFunctions (cosf sinf : ℕ → ℚ) (n_vertices : ℕ)
    (include_center : Bool) : List (ℚ × ℚ × ℚ) :=
  let scale : ℚ := 2 / (n_vertices : ℚ)
  ((List.range n_vertices).map fun k =>
    (scale, (scale * cosf k, scale * sinf k))) ++
    (if include_center then [(scale, (0, 0))] else [])

/-- The module function polygon_ifs: construct an Image_IFS with
center_origin true and add the polygon contractions in loop order. -/
def polygon_ifs (cosf sinf : ℕ → ℚ) (seed_image : Option Img)
    (image_size n_vertices : ℕ) (include_center : Bool) : Image_IFS :=
  (polygonFunctions cosf sinf n_vertices include_center).foldl
    (fun st c => st.add_function c.1 c.2)
    (Image_IFS.init seed_image image_size true)

/-! Unfolding lemmas for iterate, one per branch of the Python code. -/

/-- Unfolding lemma: a positive iteration count runs one step and
recurses with first_call false. -/
lemma iterate_pos (st : Image_IFS) {n : ℤ} (h : 0 < n) (first : Bool) :
    st.iterate n first = (iterStep st first).iterate (n - 1) false := by
  rw [Image_IFS.iterate]
  simp [h]

/-- Unfolding lemma: count zero on a non-first call finalizes. -/
lemma iterate_zero_false (st : Image_IFS) :
    st.iterate 0 false = finalize st := by
  rw [Image_IFS.iterate]
  simp

/-- Unfolding lemma: count zero on the first call does nothing. -/
lemma iterate_zero_true (st : Image_IFS) : st.iterate 0 true = st := by
  rw [Image_IFS.iterate]
  simp

/-- Unfolding lemma: a negative count leaves the state untouched. -/
lemma iterate_neg (st : Image_IFS) {n : ℤ} (h : n < 0) (first : Bool) :
    st.iterate n first = st := by
  rw [Image_IFS.iterate]
  have h1 : ¬ 0 < n := by omega
  have h2 : n ≠ 0 := by omega
  simp [h1, h2]

/-- Unfolding lemma for a successor count given as a natural number. -/
lemma iterate_natCast_succ (st : Image_IFS) (k : ℕ) (first : Bool) :
    st.iterate ((k : ℤ) + 1) first = (iterStep st first).iterate (k : ℤ) false := by
  rw [iterate_pos st (by positivity) first]
  simp

/-- Running exactly one iteration is one step followed by finalization. -/
lemma iterate_one (st : Image_IFS) (first : Bool) :
    st.iterate 1 first = finalize (iterStep st first) := by
  have h : st.iterate ((0 : ℕ) + 1) first = (iterStep st first).iterate 0 false :=
    iterate_natCast_succ st 0 first
  simpa [iterate_zero_false] using h

/-- Running exactly two iterations is two steps followed by finalization. -/
lemma iterate_two (st : Image_IFS) (first : Bool) :
    st.iterate 2 first = finalize (iterStep (iterStep st first) false) := by
  have h : st.iterate ((1 : ℕ) + 1) first = (iterStep st first).iterate 1 false :=
    iterate_natCast_succ st 1 first
  have h2 := iterate_one (iterStep st first) false
  norm_num at h
  rw [h, h2]

/-! Structural bookkeeping lemmas. -/

@[simp] lemma Img.size_new (n : ℕ) (c : Pixel) : (Img.new n c).size = n := rfl

@[simp] lemma Img.size_flip (img : Img) : img.flip.size = img.size := rfl

@[simp] lemma Img.size_resize (img : Img) (m : ℕ) : (img.resize m).size = m := rfl

@[simp] lemma Img.size_pasteAt (dst src : Img) (dx dy : ℤ) :
    (dst.pasteAt src dx dy).size = dst.size := rfl

@[simp] lemma Img.size_pasteMask (dst src : Img) :
    (dst.pasteMask src).size = dst.size := rfl

/-- The fold of mask pastes over any contraction list keeps the size of
the base canvas. -/
lemma foldl_pasteMask_size (l : List (ℚ × ℚ × ℚ)) (f : ℚ × ℚ × ℚ → Img) :
    ∀ base : Img,
      (l.foldl (fun acc c => acc.pasteMask (f c)) base).size = base.size := by
  induction l with
  | nil => intro base; rfl
  | cons c l ih => intro base; simpa using ih (base.pasteMask (f c))

@[simp] lemma iterStep_image_size (st : Image_IFS) (first : Bool) :
    (iterStep st first).image.size = st.image_size := by
  simp [iterStep, foldl_pasteMask_size]

@[simp] lemma iterStep_image_size_field (st : Image_IFS) (first : Bool) :
    (iterStep st first).image_size = st.image_size := rfl

@[simp] lemma iterStep_functions (st : Image_IFS) (first : Bool) :
    (iterStep st first).functions = st.functions := rfl

@[simp] lemma iterStep_center_origin (st : Image_IFS) (first : Bool) :
    (iterStep st first).center_origin = st.center_origin := rfl

@[simp] lemma finalize_image_size (st : Image_IFS) :
    (finalize st).image.size = st.image_size := rfl

@[simp] lemma finalize_image_size_field (st : Image_IFS) :
    (finalize st).image_size = st.image_size := rfl

@[simp] lemma finalize_functions (st : Image_IFS) :
    (finalize st).functions = st.functions := rfl

/-- Size invariant along the recursion, natural-number iteration count. -/
lemma iterate_size_nat :
    ∀ (k : ℕ) (st : Image_IFS) (first : Bool),
      st.image.size = st.image_size →
      (st.iterate (k : ℤ) first).image.size = st.image_size ∧
      (st.iterate (k : ℤ) first).image_size = st.image_size := by
  intro k
  induction k with
  | zero =>
    intro st first h
    cases first
    · rw [Int.natCast_zero, iterate_zero_false]
      exact ⟨rfl, rfl⟩
    · rw [Int.natCast_zero, iterate_zero_true]
      exact ⟨h, rfl⟩
  | succ k ih =>
    intro st first h
    have hc : ((k + 1 : ℕ) : ℤ) = (k : ℤ) + 1 := by push_cast; ring
    rw [hc, iterate_natCast_succ]
    have hstep : (iterStep st first).image.size = (iterStep st first).image_size := by
      simp
    have := ih (iterStep st first) false hstep
    simpa using this

/-- Size invariant along the recursion, arbitrary integer count. -/
lemma iterate_size (st : Image_IFS) (n : ℤ) (first : Bool)
    (h : st.image.size = st.image_size) :
    (st.iterate n first).image.size = st.image_size ∧
    (st.iterate n first).image_size = st.image_size := by
  rcases lt_or_le n 0 with hn | hn
  · rw [iterate_neg st hn]
    exact ⟨h, rfl⟩
  · lift n to ℕ using hn with k
    exact iterate_size_nat k st first h

@[simp] lemma init_image_size_field (seed : Option Img) (sz : ℕ) (co : Bool) :
    (Image_IFS.init seed sz co).image_size = sz := by
  rcases seed with _ | s <;> rfl

@[simp] lemma init_image_size (seed : Option Img) (sz : ℕ) (co : Bool) :
    (Image_IFS.init seed sz co).image.size = sz := by
  rcases seed with _ | s <;> rfl

@[simp] lemma add_function_image_size (st : Image_IFS) (s : ℚ) (t : ℚ × ℚ) :
    (st.add_function s t).image_size = st.image_size := rfl

@[simp] lemma add_function_image (st : Image_IFS) (s : ℚ) (t : ℚ × ℚ) :
    (st.add_function s t).image = st.image := rfl

@[simp] lemma add_function_center_origin (st : Image_IFS) (s : ℚ) (t : ℚ × ℚ) :
    (st.add_function s t).center_origin = st.center_origin := rfl

@[simp] lemma add_function_functions (st : Image_IFS) (s : ℚ) (t : ℚ × ℚ) :
    (st.add_function s t).functions = st.functions ++ [(s, t)] := rfl

/-- A zero translation component gives a zero pixel offset. -/
@[simp] lemma pixel_offset_zero (n : ℕ) : pixel_offset 0 n = 0 := by
  simp [pixel_offset, ratTrunc]

/-- A unit scale gives the full image size as pixel scale. -/
@[simp] lemma pixel_scale_one (n : ℕ) : pixel_scale 1 n = (n : ℤ) := by
  simp [pixel_scale, ratTrunc]

/-! Claim theorems. -/

/-- C3: if Iterate(0) is the very first operation called after
construction, it leaves the renderer state, in particular the output
buffer, exactly equal to the constructed state, whose buffer is the
(possibly resized) seed buffer; no flip and no finalization is applied. -/
theorem C3_iterate_zero_first_noop :
    (∀ st : Image_IFS, st.iterate 0 true = st) ∧
    (∀ (seed : Option Img) (sz : ℕ) (co : Bool),
      (Image_IFS.init seed sz co).image = (Image_IFS.init seed sz co).seed_image) := by
  constructor
  · exact iterate_zero_true
  · intro seed sz co
    rcases seed with _ | s <;> rfl

/-- C10: calling Iterate with a negative count as the first operation
after construction raises no error (the embedded function is total, as
neither branch of the Python code fires) and returns the state
unchanged: buffer, image_size, center_origin and contraction list. -/
theorem C10_negative_noop (st : Image_IFS) (n : ℤ) (h : n < 0) :
    st.iterate n true = st :=
  iterate_neg st h true

/-- Witness for C10 at the concrete count -1 on a freshly constructed
renderer. -/
theorem C10_negative_noop_witness :
    (Image_IFS.init none 1 false).iterate (-1) true = Image_IFS.init none 1 false :=
  C10_negative_noop (Image_IFS.init none 1 false) (-1) (by norm_num)

/-- C8: the current buffer is always a square of image_size pixels per
side: the constructor establishes the invariant for both seed paths and
every iterate call, finalization included, preserves it. -/
theorem C8_square_invariant :
    (∀ (seed : Option Img) (sz : ℕ) (co : Bool),
      (Image_IFS.init seed sz co).image.size = sz ∧
      (Image_IFS.init seed sz co).image_size = sz) ∧
    (∀ (st : Image_IFS) (n : ℤ) (first : Bool),
      st.image.size = st.image_size →
      (st.iterate n first).image.size = st.image_size ∧
      (st.iterate n first).image_size = st.image_size) := by
  constructor
  · intro seed sz co
    exact ⟨init_image_size seed sz co, init_image_size_field seed sz co⟩
  · intro st n first h
    exact iterate_size st n first h

/-- Witness for C8: the invariant holds after one iteration on a
concrete renderer of size two. -/
theorem C8_square_invariant_witness :
    ((Image_IFS.init none 2 false).iterate 1 true).image.size = 2 ∧
    ((Image_IFS.init none 2 false).iterate 1 true).image_size = 2 :=
  C8_square_invariant.2 (Image_IFS.init none 2 false) 1 true rfl

/-- C6 counterexample: the claim asserts AddContraction raises
InvalidContractionError exactly when the scale is nonpositive, so a
nonpositive scale would never land in the contraction list; but the
Python body of add_function contains no validation and no raise, and
the call with scale -1 simply appends the pair. -/
theorem C6_counterexample :
    (-1 : ℚ) ≤ 0 ∧
    ((Image_IFS.init none 4 false).add_function (-1) (0, 0)).functions =
      [(-1, (0, 0))] := by
  constructor
  · norm_num
  · rfl

/-- C6 (amended): add_function never raises; for every scale, a
nonpositive one included, it appends the pair (scale, translation) at
the end of the contraction list and changes nothing else. -/
theorem C6_add_function_appends (st : Image_IFS) (scale : ℚ)
    (translation : ℚ × ℚ) :
    (st.add_function scale translation).functions =
      st.functions ++ [(scale, translation)] ∧
    (st.add_function scale translation).image = st.image ∧
    (st.add_function scale translation).seed_image = st.seed_image ∧
    (st.add_function scale translation).image_size = st.image_size ∧
    (st.add_function scale translation).center_origin = st.center_origin :=
  ⟨rfl, rfl, rfl, rfl, rfl⟩

/-- C1 counterexample: the claim asserts the recursive step scales the
copy to round(s * image_size) pixels per side; the code computes
int(s * image_size), truncation toward zero.  At s = 19/100 and
image_size = 10 the code produces a 1 pixel copy where round prescribes
2, and the placed layer is accordingly transparent at pixel (1, 1),
which a 2 pixel copy at offset zero would have covered opaquely. -/
theorem C1_counterexample :
    pixel_scale (19 / 100) 10 = 1 ∧
    pixel_scale_spec (19 / 100) 10 = 2 ∧
    pixel_scale (19 / 100) 10 ≠ pixel_scale_spec (19 / 100) 10 ∧
    (applyContraction false 10 (_default_seed 10) (19 / 100, (0, 0))).pix 1 1 =
      ⟨0, 0, 0, 0⟩ := by
  have h1 : pixel_scale (19 / 100) 10 = 1 := by
    rw [pixel_scale, ratTrunc]
    norm_num
  have h2 : pixel_scale_spec (19 / 100) 10 = 2 := by
    rw [pixel_scale_spec, round_eq]
    norm_num
  refine ⟨h1, h2, by rw [h1, h2]; norm_num, ?_⟩
  · rw [applyContraction]
    simp only [h1, pixel_offset_zero, Img.pasteAt, Img.new, Img.size_resize]
    norm_num

/-- C1 (amended): for every renderer state and every contraction
(s, (tx, ty)) in its list, the recursive step builds the layer of that
contraction by resizing the start image to trunc(s * image_size) pixels
per side, truncation toward zero as computed by the Python int builtin,
and pasting it at the offset obtained by adding trunc(tx * image_size)
and trunc(ty * image_size) to the base offset of the origin mode. -/
theorem C1_step_truncates (st : Image_IFS) (start_image : Img) (s tx ty : ℚ)
    (hmem : (s, (tx, ty)) ∈ st.functions) (hpos : 0 < st.image_size) :
    applyContraction st.center_origin st.image_size start_image (s, (tx, ty)) =
      (Img.new st.image_size ⟨0, 0, 0, 0⟩).pasteAt
        (start_image.resize (ratTrunc (s * (st.image_size : ℚ))).toNat)
        ((if st.center_origin then ratTrunc (s * (st.image_size : ℚ)) else 0) +
          ratTrunc (tx * (st.image_size : ℚ)))
        ((if st.center_origin then ratTrunc (s * (st.image_size : ℚ)) else 0) +
          ratTrunc (ty * (st.image_size : ℚ))) ∧
    (start_image.resize (ratTrunc (s * (st.image_size : ℚ))).toNat).size =
      (ratTrunc (s * (st.image_size : ℚ))).toNat :=
  ⟨rfl, rfl⟩

/-- Witness for C1 (amended) on a concrete renderer holding the
contraction (19/100, (0, 0)) at image size 10. -/
theorem C1_step_truncates_witness :
    ((19 / 100 : ℚ), ((0 : ℚ), (0 : ℚ))) ∈
      ((Image_IFS.init none 10 false).add_function (19 / 100) (0, 0)).functions ∧
    0 < ((Image_IFS.init none 10 false).add_function (19 / 100) (0, 0)).image_size ∧
    (applyContraction
        ((Image_IFS.init none 10 false).add_function (19 / 100) (0, 0)).center_origin
        ((Image_IFS.init none 10 false).add_function (19 / 100) (0, 0)).image_size
        (_default_seed 10) (19 / 100, (0, 0)) =
      (Img.new 10 ⟨0, 0, 0, 0⟩).pasteAt
        ((_default_seed 10).resize (ratTrunc ((19 / 100 : ℚ) * (10 : ℚ))).toNat)
        ((if false then ratTrunc ((19 / 100 : ℚ) * (10 : ℚ)) else 0) +
          ratTrunc ((0 : ℚ) * (10 : ℚ)))
        ((if false then ratTrunc ((19 / 100 : ℚ) * (10 : ℚ)) else 0) +
          ratTrunc ((0 : ℚ) * (10 : ℚ)))) := by
  refine ⟨by simp [Image_IFS.init], by norm_num, ?_⟩
  exact (C1_step_truncates
    ((Image_IFS.init none 10 false).add_function (19 / 100) (0, 0))
    (_default_seed 10) (19 / 100) 0 0
    (by simp [Image_IFS.init]) (by norm_num)).1

/-! Alpha channel machinery for the opacity claims. -/

/-- Every pixel of the buffer is fully transparent or fully opaque in
its alpha channel. -/
def alphaBinary (img : Img) : Prop :=
  ∀ x y : ℤ, (img.pix x y).a = 0 ∨ (img.pix x y).a = 255

lemma blendChannel_binary {d s : ℕ} (hd : d = 0 ∨ d = 255)
    (hs : s = 0 ∨ s = 255) :
    blendChannel s d s = 0 ∨ blendChannel s d s = 255 := by
  rcases hd with h | h <;> rcases hs with h2 | h2 <;> rw [h, h2] <;> decide

lemma blendChannel_opaque {s : ℕ} (hs : s = 0 ∨ s = 255) :
    blendChannel s 255 s = 255 := by
  rcases hs with h | h <;> subst h <;> decide

lemma alphaBinary_new (n : ℕ) {c : Pixel} (hc : c.a = 0 ∨ c.a = 255) :
    alphaBinary (Img.new n c) :=
  fun _ _ => hc

lemma alphaBinary_flip {img : Img} (h : alphaBinary img) :
    alphaBinary img.flip :=
  fun x y => h x ((img.size : ℤ) - 1 - y)

lemma alphaBinary_resize {img : Img} (h : alphaBinary img) (m : ℕ) :
    alphaBinary (img.resize m) :=
  fun x y => h _ _

lemma alphaBinary_pasteAt {dst src : Img} (hd : alphaBinary dst)
    (hs : alphaBinary src) (dx dy : ℤ) :
    alphaBinary (dst.pasteAt src dx dy) := by
  intro x y
  simp only [Img.pasteAt]
  split
  · exact hs _ _
  · exact hd _ _

lemma alphaBinary_pasteMask {dst src : Img} (hd : alphaBinary dst)
    (hs : alphaBinary src) :
    alphaBinary (dst.pasteMask src) := by
  intro x y
  simp only [Img.pasteMask]
  split
  · exact blendChannel_binary (hd x y) (hs x y)
  · exact hd x y

lemma alphaBinary_applyContraction (co : Bool) (n : ℕ) {start : Img}
    (h : alphaBinary start) (c : ℚ × ℚ × ℚ) :
    alphaBinary (applyContraction co n start c) :=
  alphaBinary_pasteAt (alphaBinary_new n (Or.inl rfl)) (alphaBinary_resize h _) _ _

lemma alphaBinary_foldl (co : Bool) (n : ℕ) {start : Img}
    (hstart : alphaBinary start) :
    ∀ (l : List (ℚ × ℚ × ℚ)) (base : Img), alphaBinary base →
      alphaBinary
        (l.foldl (fun acc c => acc.pasteMask (applyContraction co n start c)) base) := by
  intro l
  induction l with
  | nil => intro base hb; exact hb
  | cons c l ih =>
    intro base hb
    exact ih _ (alphaBinary_pasteMask hb (alphaBinary_applyContraction co n hstart c))

lemma alphaBinary_iterStep {st : Image_IFS} (h : alphaBinary st.image)
    (first : Bool) :
    alphaBinary (iterStep st first).image := by
  have hstart : alphaBinary (if first then st.image.flip else st.image) := by
    cases first
    · simpa using h
    · simpa using alphaBinary_flip h
  exact alphaBinary_foldl st.center_origin st.image_size hstart st.functions
    (Img.new st.image_size ⟨0, 0, 0, 0⟩) (alphaBinary_new _ (Or.inl rfl))

lemma finalize_alpha {st : Image_IFS} (h : alphaBinary st.image) :
    ∀ x y : ℤ, ((finalize st).image.pix x y).a = 255 := by
  intro x y
  simp only [finalize, Img.flip, Img.pasteMask, Img.new]
  split
  · exact blendChannel_opaque (h _ _)
  · rfl

lemma iterate_alpha_false :
    ∀ (k : ℕ) (st : Image_IFS), alphaBinary st.image →
      ∀ x y : ℤ, ((st.iterate (k : ℤ) false).image.pix x y).a = 255 := by
  intro k
  induction k with
  | zero =>
    intro st h x y
    rw [Int.natCast_zero, iterate_zero_false]
    exact finalize_alpha h x y
  | succ k ih =>
    intro st h x y
    have hc : ((k + 1 : ℕ) : ℤ) = (k : ℤ) + 1 := by push_cast; ring
    rw [hc, iterate_natCast_succ]
    exact ih _ (alphaBinary_iterStep h false) x y

/-- C2 (amended): after a top-level Iterate(k) with k at least one on a
renderer with a non-empty contraction set, every pixel of the output
buffer has alpha 255, provided every pixel of the current (seed) buffer
is fully transparent or fully opaque.  The restriction is forced by the
counterexample: the Pillow mask paste blends intermediate alpha values,
so a partially transparent seed leaves partially transparent output. -/
theorem C2_opaque_after_iterate (st : Image_IFS) (k : ℤ) (hk : 1 ≤ k)
    (hfun : st.functions ≠ []) (hseed : alphaBinary st.image) :
    ∀ x y : ℤ, ((st.iterate k true).image.pix x y).a = 255 := by
  have h0 : 0 ≤ k - 1 := by omega
  lift k - 1 to ℕ using h0 with m hm
  have hk2 : k = (m : ℤ) + 1 := by omega
  rw [hk2, iterate_natCast_succ]
  exact iterate_alpha_false m _ (alphaBinary_iterStep hseed true)

/-- Witness for C2 (amended) on the default white seed with one
contraction of scale one half. -/
theorem C2_opaque_after_iterate_witness :
    (1 : ℤ) ≥ 1 ∧
    ∀ x y : ℤ,
      (((((Image_IFS.init none 1 false).add_function (1 / 2) (0, 0))).iterate
          1 true).image.pix x y).a = 255 :=
  ⟨by norm_num,
   C2_opaque_after_iterate _ 1 (by norm_num)
     (by simp [Image_IFS.init])
     (fun _ _ => Or.inr rfl)⟩

/-! Machinery for the empty contraction list. -/

/-- With an empty contraction list one step replaces the current image
with the fresh transparent canvas and changes nothing else. -/
lemma iterStep_empty (st : Image_IFS) (first : Bool)
    (h : st.functions = []) :
    iterStep st first = { st with image := Img.new st.image_size ⟨0, 0, 0, 0⟩ } := by
  simp [iterStep, h]

/-- From a transparent canvas and an empty contraction list, any number
of further iterations finalizes to the all-black opaque buffer. -/
lemma iterate_empty_pix :
    ∀ (k : ℕ) (st : Image_IFS), st.functions = [] →
      st.image = Img.new st.image_size ⟨0, 0, 0, 0⟩ →
      (st.iterate (k : ℤ) false).image.size = st.image_size ∧
      ∀ x y : ℤ, (st.iterate (k : ℤ) false).image.pix x y = ⟨0, 0, 0, 255⟩ := by
  intro k
  induction k with
  | zero =>
    intro st hf hi
    rw [Int.natCast_zero, iterate_zero_false]
    refine ⟨rfl, fun x y => ?_⟩
    simp only [finalize, Img.flip, Img.pasteMask, Img.new, hi]
    split
    · decide
    · rfl
  | succ k ih =>
    intro st hf hi
    have hc : ((k + 1 : ℕ) : ℤ) = (k : ℤ) + 1 := by push_cast; ring
    rw [hc, iterate_natCast_succ, iterStep_empty st false hf]
    have := ih { st with image := Img.new st.image_size ⟨0, 0, 0, 0⟩ }
      (by simp [hf]) rfl
    simpa using this

/-- C9: with an empty contraction list, a first-call Iterate(n) with n
at least one raises no error (the embedding is total, as the code has no
failure path on this input) and produces a buffer of side image_size
whose every pixel is opaque black, regardless of the seed buffer. -/
theorem C9_empty_functions_black (st : Image_IFS) (n : ℤ)
    (hf : st.functions = []) (hn : 1 ≤ n) :
    (st.iterate n true).image.size = st.image_size ∧
    ∀ x y : ℤ, (st.iterate n true).image.pix x y = ⟨0, 0, 0, 255⟩ := by
  have h0 : 0 ≤ n - 1 := by omega
  lift n - 1 to ℕ using h0 with m hm
  have hn2 : n = (m : ℤ) + 1 := by omega
  rw [hn2, iterate_natCast_succ, iterStep_empty st true hf]
  have := iterate_empty_pix m { st with image := Img.new st.image_size ⟨0, 0, 0, 0⟩ }
    (by simp [hf]) rfl
  simpa using this

/-- Witness for C9 on a freshly constructed renderer of size two. -/
theorem C9_empty_functions_black_witness :
    (Image_IFS.init none 2 false).functions = [] ∧ (1 : ℤ) ≥ 1 ∧
    (((Image_IFS.init none 2 false).iterate 1 true).image.size =
        (Image_IFS.init none 2 false).image_size ∧
      ∀ x y : ℤ,
        ((Image_IFS.init none 2 false).iterate 1 true).image.pix x y =
          ⟨0, 0, 0, 255⟩) :=
  ⟨rfl, by norm_num, C9_empty_functions_black _ 1 rfl (by norm_num)⟩

/-- The 1 by 1 half-transparent seed used by the counterexamples: a
single pixel of white at alpha 128. -/
def halfSeed : Img := ⟨1, fun _ _ => ⟨255, 255, 255, 128⟩⟩

/-- Renderer over the half-transparent seed with the single identity
contraction (scale 1, translation (0, 0)) and corner origin. -/
def halfSeedState : Image_IFS :=
  (Image_IFS.init (some halfSeed) 1 false).add_function 1 (0, 0)

/-- C2 counterexample: a renderer constructed with a half-transparent
1 by 1 seed and a non-empty contraction set produces, after a top-level
Iterate(1), an output pixel with alpha 207, not 255: the mask paste of
the finalization blends alpha instead of forcing opacity. -/
theorem C2_counterexample :
    (1 : ℤ) ≥ 1 ∧ halfSeedState.functions ≠ [] ∧
    ((halfSeedState.iterate 1 true).image.pix 0 0).a = 207 ∧
    ((halfSeedState.iterate 1 true).image.pix 0 0).a ≠ 255 := by
  have h : ((halfSeedState.iterate 1 true).image.pix 0 0).a = 207 := by
    rw [iterate_one]
    simp [halfSeedState, halfSeed, Image_IFS.init, Image_IFS.add_function,
      iterStep, finalize, applyContraction, Img.pasteMask, Img.pasteAt,
      Img.new, Img.resize, Img.flip, _default_seed, Pixel.blendPix,
      blendChannel, muldiv255]
  exact ⟨by norm_num, by simp [halfSeedState, Image_IFS.init], h,
    by rw [h]; norm_num⟩

/-- C7: there is a renderer (half-transparent 1 by 1 seed, identity
contraction) and counts a = b = 1 such that Iterate(1) followed by
Iterate(1) gives a buffer different from Iterate(2) on an identically
constructed renderer: the per-call finalization makes the alpha values
198 and 240 respectively at pixel (0, 0). -/
theorem C7_iterate_split_differs :
    ∃ (st : Image_IFS) (a b : ℤ), 1 ≤ a ∧ 1 ≤ b ∧
      ((st.iterate a true).iterate b true).image ≠
        (st.iterate (a + b) true).image := by
  refine ⟨halfSeedState, 1, 1, by norm_num, by norm_num, fun heq => ?_⟩
  have hpix : (((halfSeedState.iterate 1 true).iterate 1 true).image.pix 0 0).a =
      ((halfSeedState.iterate (1 + 1) true).image.pix 0 0).a := by rw [heq]
  rw [show (1 + 1 : ℤ) = 2 from rfl, iterate_two] at hpix
  rw [iterate_one, iterate_one] at hpix
  simp [halfSeedState, halfSeed, Image_IFS.init, Image_IFS.add_function,
    iterStep, finalize, applyContraction, Img.pasteMask, Img.pasteAt,
    Img.new, Img.resize, Img.flip, _default_seed, Pixel.blendPix,
    blendChannel, muldiv255] at hpix

/-! Lemmas for the generator claims. -/

/-- The fold of add_function calls over a list appends the list to the
contraction list. -/
lemma foldl_add_function (l : List (ℚ × ℚ × ℚ)) :
    ∀ st : Image_IFS,
      (l.foldl (fun st c => st.add_function c.1 c.2) st).functions =
        st.functions ++ l := by
  induction l with
  | nil => intro st; simp
  | cons c l ih =>
    intro st
    rw [List.foldl_cons, ih]
    simp

/-- The Sierpinski generator builds its contraction list. -/
lemma n_sierpinski_functions (sqrt3 : ℚ) (seed : Option Img)
    (image_size n : ℕ) :
    (n_sierpinski sqrt3 seed image_size n).functions =
      sierpinskiFunctions sqrt3 n := by
  rw [n_sierpinski, foldl_add_function]
  rcases seed with _ | s <;> rfl

/-- Length of the Sierpinski contraction list: the double loop over
i below n and j below n - i yields the triangular number. -/
lemma sierpinskiFunctions_length (sqrt3 : ℚ) (n : ℕ) :
    (sierpinskiFunctions sqrt3 n).length = n * (n + 1) / 2 := by
  have h1 : (sierpinskiFunctions sqrt3 n).length =
      ((List.range n).map (fun i => n - i)).sum := by
    simp only [sierpinskiFunctions, List.length_flatMap, Function.comp_def,
      List.length_map, List.length_range]
  have h2 : ((List.range n).map (fun i => n - i)).sum =
      ∑ i ∈ Finset.range n, (n - i) := rfl
  have h3 : (∑ i ∈ Finset.range n, (n - i)) * 2 = n * (n + 1) := by
    rw [← Finset.sum_range_reflect]
    have h : ∀ j ∈ Finset.range n, n - (n - 1 - j) = j + 1 := by
      intro j hj
      simp only [Finset.mem_range] at hj
      omega
    rw [Finset.sum_congr rfl h, Finset.sum_add_distrib, Finset.sum_const,
      Finset.card_range, smul_eq_mul, mul_one, add_mul,
      Finset.sum_range_id_mul_two]
    cases n with
    | zero => rfl
    | succ m => simp [Nat.succ_sub_one]; ring
  have h4 : (sierpinskiFunctions sqrt3 n).length * 2 = n * (n + 1) := by
    rw [h1, h2, h3]
  generalize hK : n * (n + 1) = K at h4 ⊢
  omega

/-- Every contraction of the Sierpinski list has scale one over n. -/
lemma sierpinskiFunctions_scale {sqrt3 : ℚ} {n : ℕ} {c : ℚ × ℚ × ℚ}
    (hc : c ∈ sierpinskiFunctions sqrt3 n) : c.1 = 1 / (n : ℚ) := by
  simp only [sierpinskiFunctions] at hc
  obtain ⟨i, hi, hc2⟩ := List.mem_flatMap.1 hc
  obtain ⟨j, hj, rfl⟩ := List.mem_map.1 hc2
  rfl

/-- C4: for n at least one, the Sierpinski generator produces exactly
n(n+1)/2 contractions, every one of scale 1/n.  The square root of
three occurring in the translation components is abstracted as an
arbitrary rational parameter, and the statement holds for every value
of it. -/
theorem C4_sierpinski_count_scale (sqrt3 : ℚ) (seed : Option Img)
    (image_size n : ℕ) (hn : 1 ≤ n) :
    (n_sierpinski sqrt3 seed image_size n).functions.length = n * (n + 1) / 2 ∧
    ∀ c ∈ (n_sierpinski sqrt3 seed image_size n).functions,
      c.1 = 1 / (n : ℚ) := by
  rw [n_sierpinski_functions]
  exact ⟨sierpinskiFunctions_length sqrt3 n,
    fun c hc => sierpinskiFunctions_scale hc⟩

/-- Witness for C4 at n = 2 with a rational stand-in for the square
root of three. -/
theorem C4_sierpinski_count_scale_witness :
    1 ≤ 2 ∧
    ((n_sierpinski (1732 / 1000) none 4 2).functions.length = 2 * (2 + 1) / 2 ∧
      ∀ c ∈ (n_sierpinski (1732 / 1000) none 4 2).functions,
        c.1 = 1 / (2 : ℚ)) :=
  ⟨by norm_num, C4_sierpinski_count_scale (1732 / 1000) none 4 2 (by norm_num)⟩

/-- The polygon generator builds its contraction list. -/
lemma polygon_ifs_functions (cosf sinf : ℕ → ℚ) (seed : Option Img)
    (image_size n_vertices : ℕ) (include_center : Bool) :
    (polygon_ifs cosf sinf seed image_size n_vertices include_center).functions =
      polygonFunctions cosf sinf n_vertices include_center := by
  rw [polygon_ifs, foldl_add_function]
  rcases seed with _ | s <;> rfl

/-- C5: for n_vertices at least three, the polygon generator without the
center contraction produces exactly n_vertices contractions, each of
scale 2/n_vertices; with include_center set, the same list with one
further contraction (scale, (0, 0)) appended at the end.  The cosine and
sine values of the vertices are abstracted as arbitrary rational-valued
functions, and the statement holds for every choice of them. -/
theorem C5_polygon_count_scale (cosf sinf : ℕ → ℚ) (seed : Option Img)
    (image_size n_vertices : ℕ) (hn : 3 ≤ n_vertices) :
    (polygon_ifs cosf sinf seed image_size n_vertices false).functions.length =
      n_vertices ∧
    (∀ c ∈ (polygon_ifs cosf sinf seed image_size n_vertices false).functions,
      c.1 = 2 / (n_vertices : ℚ)) ∧
    (polygon_ifs cosf sinf seed image_size n_vertices true).functions =
      (polygon_ifs cosf sinf seed image_size n_vertices false).functions ++
        [(2 / (n_vertices : ℚ), (0, 0))] := by
  rw [polygon_ifs_functions, polygon_ifs_functions]
  refine ⟨by simp [polygonFunctions], ?_, by simp [polygonFunctions]⟩
  intro c hc
  simp only [polygonFunctions, List.append_nil, if_neg Bool.false_ne_true] at hc
  obtain ⟨k, hk, rfl⟩ := List.mem_map.1 hc
  rfl

/-- Witness for C5 at four vertices with zero stand-ins for the cosine
and sine values. -/
theorem C5_polygon_count_scale_witness :
    3 ≤ 4 ∧
    ((polygon_ifs (fun _ => 0) (fun _ => 0) none 8 4 false).functions.length = 4 ∧
      (∀ c ∈ (polygon_ifs (fun _ => 0) (fun _ => 0) none 8 4 false).functions,
        c.1 = 2 / (4 : ℚ)) ∧
      (polygon_ifs (fun _ => 0) (fun _ => 0) none 8 4 true).functions =
        (polygon_ifs (fun _ => 0) (fun _ => 0) none 8 4 false).functions ++
          [(2 / (4 : ℚ), (0, 0))]) :=
  ⟨by norm_num,
   C5_polygon_count_scale (fun _ => 0) (fun _ => 0) none 8 4 (by norm_num)⟩
